import Mathlib

/-!
Verification of the ordinal-indexer core against its specification.

The definitions below are shallow embeddings of the Rust sources:
machine integers become `Nat` with explicit wrapping or saturating
arithmetic where the source relies on it, fallible operations return
`Except` or `Option`, and stateful loops become structural or
well-founded recursion.  Where a definition embeds a particular source
function, its doc comment names the file.  The `Epoch` and `Height`
helpers of the `ordinals` crate are not part of the provided sources
(only their callers are); they are modelled from the specification and
say so in their doc comments.
-/

/-- `u128::MAX`, the saturation bound of the runestone varint arithmetic. -/
def U128MAX : Nat := 2 ^ 128 - 1

/-- `u128::saturating_mul` on values already below the bound. -/
def satMulU128 (a b : Nat) : Nat := min (a * b) U128MAX

/-- `u128::saturating_add` on values already below the bound. -/
def satAddU128 (a b : Nat) : Nat := min (a + b) U128MAX

namespace varint

/-- Continuation bytes of `varint::encode_to_vec` (src/src/runes/varint.rs):
the loop `while n > 0x7f { n = n / 128 - 1; out[i] = n.to_le_bytes()[0] | 0x80 }`,
emitted most-significant first.  `n.to_le_bytes()[0]` is `n % 256`. -/
def encodeCont (n : Nat) : List Nat :=
  if n ≤ 127 then []
  else
    encodeCont (n / 128 - 1) ++ [(n / 128 - 1) % 256 ||| 128]
termination_by n
decreasing_by
  have h1 : n / 128 < n := Nat.div_lt_self (by omega) (by norm_num)
  omega

/-- `varint::encode_to_vec` (src/src/runes/varint.rs): the final byte is
`n.to_le_bytes()[0] & 0x7f = n % 128`, preceded by the continuation bytes. -/
def encode (n : Nat) : List Nat :=
  encodeCont n ++ [n % 128]

/-- The loop of `varint::decode` (src/src/runes/varint.rs), with the already
consumed prefix dropped from the buffer and its length carried in `i`:
`n = n.saturating_mul(128)`; a byte below 128 terminates with
`n.saturating_add(b)`; otherwise `n = n.saturating_add(b - 127)`. -/
def decodeGo : List Nat → Nat → Nat → Nat × Nat
  | [], n, i => (n, i)
  | b :: rest, n, i =>
    let n1 := satMulU128 n 128
    if b < 128 then (satAddU128 n1 b, i + 1)
    else decodeGo rest (satAddU128 n1 (b - 127)) (i + 1)

/-- `varint::decode` (src/src/runes/varint.rs). -/
def decode (buffer : List Nat) : Nat × Nat :=
  decodeGo buffer 0 0

end varint

/-- `MAX_DIVISIBILITY` (src/src/runes.rs). -/
def MAX_DIVISIBILITY : Nat := 38

/-- `MAX_LIMIT = 1 << 64` (src/src/runes.rs). -/
def MAX_LIMIT : Nat := 1 <<< 64

/-- `MAX_SPACERS = 0b00000111_11111111_11111111_11111111 = 2^27 - 1`
(src/src/runes/runestone.rs). -/
def MAX_SPACERS : Nat := 0x07FFFFFF

namespace Tag

/-- Tag discriminants (src/src/runes/tag.rs). -/
def Body : Nat := 0

def Flags : Nat := 2

def Rune : Nat := 4

def Limit : Nat := 6

def Term : Nat := 8

def Deadline : Nat := 10

def DefaultOutput : Nat := 12

def Claim : Nat := 14

def Burn : Nat := 126

def Divisibility : Nat := 1

def Spacers : Nat := 3

def Symbol : Nat := 5

def Nop : Nat := 127

end Tag

namespace Flag

/-- Flag bit positions (src/src/runes/flag.rs). -/
def Etch : Nat := 0

def Mint : Nat := 1

def Burn : Nat := 127

/-- `Flag::mask` (src/src/runes/flag.rs): `1 << self`. -/
def mask (f : Nat) : Nat := 1 <<< f

/-- `Flag::take` (src/src/runes/flag.rs): reports whether the bit is set and
clears it (`*flags &= !mask`; for a single-bit mask this subtracts the mask
when the bit was set). -/
def take (f : Nat) (flags : Nat) : Bool × Nat :=
  let m := mask f
  let set := flags &&& m != 0
  (set, if set then flags - m else flags)

end Flag

/-- Modelled from the spec: `Edict { id, amount, output }` (§3 Runestone);
the struct source `src/src/runes/edict.rs` is not in the provided tree, but
its three u128 fields are fixed by its construction in
`Message::from_integers` (src/src/runes/runestone.rs). -/
structure Edict where
  id : Nat
  amount : Nat
  output : Nat
deriving DecidableEq, Repr

/-- Modelled from the spec: `Mint { deadline, limit, term }` (§3 Rune
entities); the struct source `src/src/runes/mint.rs` is not in the provided
tree, but its fields are fixed by its construction in `Runestone::decipher`. -/
structure Mint where
  deadline : Option Nat
  limit : Option Nat
  term : Option Nat
deriving DecidableEq, Repr

/-- Modelled from the spec: the etching sub-structure (§3, §4.1); the struct
source `src/src/runes/etching.rs` is not in the provided tree, but its fields
are fixed by its construction in `Runestone::decipher`.  `rune` is the name
integer, `symbol` the unicode scalar value of the symbol character. -/
structure Etching where
  divisibility : Nat
  rune : Option Nat
  spacers : Nat
  symbol : Option Nat
  mint : Option Mint
deriving DecidableEq, Repr

/-- `Runestone` (src/src/runes/runestone.rs). -/
structure Runestone where
  burn : Bool
  claim : Option Nat
  default_output : Option Nat
  edicts : List Edict
  etching : Option Etching
deriving DecidableEq, Repr

/-- `Message` (src/src/runes/runestone.rs): the field map is an association
list with distinct keys in insertion order, standing for the `HashMap`. -/
structure Message where
  fields : List (Nat × Nat)
  edicts : List Edict
deriving DecidableEq, Repr

/-- `HashMap` key lookup on the association-list model of the field map. -/
def lookupTag : List (Nat × Nat) → Nat → Option Nat
  | [], _ => none
  | kv :: rest, t => if kv.1 = t then some kv.2 else lookupTag rest t

/-- `fields.entry(tag).or_insert(value)`: keep the first occurrence. -/
def insertIfAbsent (fields : List (Nat × Nat)) (tag v : Nat) : List (Nat × Nat) :=
  if (lookupTag fields tag).isSome then fields else fields ++ [(tag, v)]

/-- The edict loop of `Message::from_integers` (src/src/runes/runestone.rs):
`chunks_exact(3)` over the integers after the Body tag, accumulating the id
by `saturating_add`; an incomplete trailing chunk is dropped. -/
def edictsFrom (id : Nat) : List Nat → List Edict
  | a :: b :: c :: rest =>
    let id1 := satAddU128 id a
    ⟨id1, b, c⟩ :: edictsFrom id1 rest
  | _ => []

/-- The field loop of `Message::from_integers` (src/src/runes/runestone.rs):
pairs are read two at a time; the Body tag switches to edict parsing; a
trailing tag with no value ends the loop. -/
def Message.fromIntegersGo : List Nat → List (Nat × Nat) → Message
  | [], fields => ⟨fields, []⟩
  | tag :: rest, fields =>
    if tag = Tag.Body then ⟨fields, edictsFrom 0 rest⟩
    else
      match rest with
      | [] => ⟨fields, []⟩
      | v :: rest2 => Message.fromIntegersGo rest2 (insertIfAbsent fields tag v)

/-- `Message::from_integers` (src/src/runes/runestone.rs). -/
def Message.fromIntegers (payload : List Nat) : Message :=
  Message.fromIntegersGo payload []

/-- `Tag::take` (src/src/runes/tag.rs): `fields.remove(&tag)`, returning the
stored value and the map without the key. -/
def fieldsTake (tag : Nat) (fields : List (Nat × Nat)) : Option Nat × List (Nat × Nat) :=
  (lookupTag fields tag, fields.filter (fun kv => kv.1 != tag))

/-- `u32::try_from` on a u128 value. -/
def tryU32 (n : Nat) : Option Nat :=
  if n < 2 ^ 32 then some n else none

/-- `u8::try_from` on a u128 value. -/
def tryU8 (n : Nat) : Option Nat :=
  if n < 2 ^ 8 then some n else none

/-- `char::from_u32`: valid unicode scalar values (below the surrogate range
or between it and 0x110000), kept as the code point. -/
def charFromU32 (n : Nat) : Option Nat :=
  if n < 0xD800 ∨ (0xE000 ≤ n ∧ n < 0x110000) then some n else none

/-- The loop of `Runestone::integers` (src/src/runes/runestone.rs):
`while i < payload.len()`, decoding one varint per iteration.  The loop is
bounded by an explicit fuel; since `varint::decode` consumes at least one
byte from a non-empty buffer (proved below as part of the decode theorems),
fuel equal to the payload length never runs out, and the equation
`integers p = (decode p).1 :: integers (p.drop (decode p).2)` for non-empty
`p` is proved as `Runestone.integers_eq`. -/
def Runestone.integersGo : Nat → List Nat → List Nat
  | 0, _ => []
  | _, [] => []
  | fuel + 1, b :: rest =>
    let p := varint.decode (b :: rest)
    p.1 :: Runestone.integersGo fuel ((b :: rest).drop p.2)

/-- `Runestone::integers` (src/src/runes/runestone.rs). -/
def Runestone.integers (payload : List Nat) : List Nat :=
  Runestone.integersGo payload.length payload

/-- The tail of `Runestone::decipher` (src/src/runes/runestone.rs) from the
decoded integer sequence on: build the `Message`, take the recognized tags
in source order, drop a divisibility above `MAX_DIVISIBILITY` and spacers
above `MAX_SPACERS` (defaulting to 0), clamp the limit to `MAX_LIMIT`, split
the Etch and Mint bits out of the flags, and mark `burn` when any other flag
bit or any remaining even tag is present.  The OP_RETURN script scan that
produces the payload bytes is not modelled; deciphering is taken from the
payload on. -/
def Runestone.decipherIntegers (integers : List Nat) : Runestone :=
  let m := Message.fromIntegers integers
  let tclaim := fieldsTake Tag.Claim m.fields
  let tdeadline := fieldsTake Tag.Deadline tclaim.2
  let deadline := tdeadline.1.bind tryU32
  let tdefault := fieldsTake Tag.DefaultOutput tdeadline.2
  let default_output := tdefault.1.bind tryU32
  let tdiv := fieldsTake Tag.Divisibility tdefault.2
  let divisibility :=
    ((tdiv.1.bind tryU8).bind
      (fun d => if d ≤ MAX_DIVISIBILITY then some d else none)).getD 0
  let tlimit := fieldsTake Tag.Limit tdiv.2
  let limit := tlimit.1.map (fun l => min l MAX_LIMIT)
  let trune := fieldsTake Tag.Rune tlimit.2
  let tspacers := fieldsTake Tag.Spacers trune.2
  let spacers :=
    ((tspacers.1.bind tryU32).bind
      (fun s => if s ≤ MAX_SPACERS then some s else none)).getD 0
  let tsymbol := fieldsTake Tag.Symbol tspacers.2
  let symbol := (tsymbol.1.bind tryU32).bind charFromU32
  let tterm := fieldsTake Tag.Term tsymbol.2
  let term := tterm.1.bind tryU32
  let tflags := fieldsTake Tag.Flags tterm.2
  let flags := tflags.1.getD 0
  let tetch := Flag.take Flag.Etch flags
  let tmint := Flag.take Flag.Mint tetch.2
  let etching :=
    if tetch.1 then
      some { divisibility, rune := trune.1, spacers, symbol,
             mint := if tmint.1 then some { deadline, limit, term } else none }
    else none
  { burn := tmint.2 != 0 || tflags.2.any (fun kv => kv.1 % 2 == 0),
    claim := tclaim.1, default_output, edicts := m.edicts, etching }

/-- `Runestone::decipher` (src/src/runes/runestone.rs) from the payload bytes
of the matched OP_RETURN output on. -/
def Runestone.decipherPayload (payload : List Nat) : Runestone :=
  Runestone.decipherIntegers (Runestone.integers payload)

/-- `SUBSIDY_HALVING_INTERVAL` (bitcoin constant re-exported in src/src/lib.rs). -/
def SUBSIDY_HALVING_INTERVAL : Nat := 210000

/-- `DIFFCHANGE_INTERVAL` (bitcoin constant re-exported in src/src/lib.rs). -/
def DIFFCHANGE_INTERVAL : Nat := 2016

/-- `CYCLE_EPOCHS` (spec §3: a cycle is six halving epochs). -/
def CYCLE_EPOCHS : Nat := 6

/-- `COIN_VALUE`: 100_000_000 sats per coin (spec §8 scenario 1 uses
`50·100_000_000` as the first block subsidy). -/
def COIN_VALUE : Nat := 100000000

namespace Sat

/-- `Sat::SUPPLY` (src/crates/ordinals/src/sat.rs). -/
def SUPPLY : Nat := 2099999997690000

/-- `Sat::LAST` (src/crates/ordinals/src/sat.rs). -/
def LAST : Nat := SUPPLY - 1

end Sat

namespace Epoch

/-- Modelled from the spec: the block subsidy of a halving epoch
(crates/ordinals epoch.rs is not in the provided tree).  Spec §3 and the
glossary fix a fixed halving schedule: the subsidy starts at `50·COIN_VALUE`
and halves every `SUBSIDY_HALVING_INTERVAL` blocks until it reaches zero in
epoch 33 (right shift by the epoch index). -/
def subsidy (e : Nat) : Nat :=
  if e < 33 then (50 * COIN_VALUE) >>> e else 0

/-- Modelled from the spec: the first sat of a halving epoch, the sum of the
subsidies of all earlier blocks; every epoch from 33 on starts at `SUPPLY`. -/
def startingSat (e : Nat) : Nat :=
  if 33 ≤ e then Sat.SUPPLY
  else ((List.range e).map subsidy).sum * SUBSIDY_HALVING_INTERVAL

/-- Modelled from the spec: the first height of a halving epoch. -/
def startingHeight (e : Nat) : Nat := e * SUBSIDY_HALVING_INTERVAL

/-- Modelled from the spec: the epoch of a height (`height / H`). -/
def ofHeight (h : Nat) : Nat := h / SUBSIDY_HALVING_INTERVAL

/-- Modelled from the spec: the epoch containing a sat, the largest epoch
index (at most 33) whose starting sat does not exceed it. -/
def ofSat (s : Nat) : Nat :=
  (List.range 34).foldl (fun acc e => if startingSat e ≤ s then e else acc) 0

end Epoch

namespace Height

/-- Modelled from the spec: the subsidy of the block at a height
(crates/ordinals height.rs is not in the provided tree). -/
def subsidy (h : Nat) : Nat := Epoch.subsidy (Epoch.ofHeight h)

/-- Modelled from the spec: the first sat created in the block at a height:
the start of its epoch plus the full subsidies of the earlier blocks of the
epoch. -/
def startingSat (h : Nat) : Nat :=
  Epoch.startingSat (Epoch.ofHeight h)
    + (h - Epoch.startingHeight (Epoch.ofHeight h)) * Epoch.subsidy (Epoch.ofHeight h)

end Height

namespace Sat

/-- `Sat::epoch` (src/crates/ordinals/src/sat.rs), via the modelled
`Epoch::from(Sat)`. -/
def epoch (s : Nat) : Nat := Epoch.ofSat s

/-- `Sat::epoch_position` (src/crates/ordinals/src/sat.rs). -/
def epochPosition (s : Nat) : Nat := s - Epoch.startingSat (epoch s)

/-- `Sat::height` (src/crates/ordinals/src/sat.rs):
`epoch.starting_height() + epoch_position / subsidy`. -/
def height (s : Nat) : Nat :=
  Epoch.startingHeight (epoch s) + epochPosition s / Epoch.subsidy (epoch s)

/-- `Sat::third` (src/crates/ordinals/src/sat.rs):
`epoch_position % subsidy`. -/
def third (s : Nat) : Nat := epochPosition s % Epoch.subsidy (epoch s)

end Sat

/-- `Degree` (src/crates/ordinals/src/degree.rs). -/
structure Degree where
  hour : Nat
  minute : Nat
  second : Nat
  third : Nat
deriving DecidableEq, Repr

/-- `impl From<Sat> for Degree` (src/crates/ordinals/src/degree.rs). -/
def Sat.degree (s : Nat) : Degree :=
  { hour := Sat.height s / (CYCLE_EPOCHS * SUBSIDY_HALVING_INTERVAL)
    minute := Sat.height s % SUBSIDY_HALVING_INTERVAL
    second := Sat.height s % DIFFCHANGE_INTERVAL
    third := Sat.third s }

/-- `Rarity` (src/crates/ordinals/src/rarity.rs). -/
inductive Rarity where
  | Common
  | Uncommon
  | Rare
  | Epic
  | Legendary
  | Mythic
deriving DecidableEq, Repr

/-- The branch structure of `impl From<Sat> for Rarity`
(src/crates/ordinals/src/rarity.rs), on the already computed degree. -/
def rarityOfDegree (d : Degree) : Rarity :=
  if d.hour = 0 ∧ d.minute = 0 ∧ d.second = 0 ∧ d.third = 0 then .Mythic
  else if d.minute = 0 ∧ d.second = 0 ∧ d.third = 0 then .Legendary
  else if d.minute = 0 ∧ d.third = 0 then .Epic
  else if d.second = 0 ∧ d.third = 0 then .Rare
  else if d.third = 0 then .Uncommon
  else .Common

/-- `Sat::rarity` (src/crates/ordinals/src/rarity.rs): the rarity of the
degree of the sat. -/
def Sat.rarity (s : Nat) : Rarity := rarityOfDegree (Sat.degree s)

namespace Sat

/-- `ErrorKind` (src/crates/ordinals/src/sat.rs).  The `ParseInt` and
`ParseFloat` payloads are dropped. -/
inductive ErrorKind where
  | IntegerRange
  | NameRange
  | NameCharacter
  | Percentile
  | BlockOffset
  | MissingPeriod
  | TrailingCharacters
  | MissingDegree
  | MissingMinute
  | MissingSecond
  | PeriodOffset
  | EpochOffset
  | EpochPeriodMismatch
  | ParseInt
  | ParseFloat
deriving DecidableEq, Repr

end Sat

/-- `str::split_once`: the text before the first occurrence of the separator
and the text after it, or `none` when the separator does not occur. -/
def splitOnce : List Char → Char → Option (List Char × List Char)
  | [], _ => none
  | c :: rest, d =>
    if c = d then some ([], rest)
    else (splitOnce rest d).map (fun p => (c :: p.1, p.2))

/-- Rust `FromStr` for an unsigned integer type with exclusive bound `bound`
on the value: an optional leading `+`, then at least one ascii digit, and
the value must fit the type; anything else is a parse error. -/
def parseUint (s : List Char) (bound : Nat) : Option Nat :=
  let digits := if s.head? = some '+' then s.tail else s
  if digits = [] then none
  else if digits.all (fun c => '0' ≤ c && c ≤ '9') then
    let v := digits.foldl (fun a c => a * 10 + (c.toNat - 48)) 0
    if v < bound then some v else none
  else none

namespace Sat

/-- The loop of `Sat::from_name` (src/crates/ordinals/src/sat.rs):
`x = x * 26 + c - a + 1`, failing past `SUPPLY` or on a character outside
`a..=z`. -/
def fromNameGo : List Char → Nat → Except ErrorKind Nat
  | [], x => .ok x
  | c :: rest, x =>
    if 'a' ≤ c ∧ c ≤ 'z' then
      let x1 := x * 26 + (c.toNat - 'a'.toNat) + 1
      if x1 > SUPPLY then .error .NameRange else fromNameGo rest x1
    else .error .NameCharacter

/-- `Sat::from_name` (src/crates/ordinals/src/sat.rs). -/
def fromName (s : List Char) : Except ErrorKind Nat :=
  (fromNameGo s 0).map (fun x => SUPPLY - x)

/-- `Sat::from_degree` (src/crates/ordinals/src/sat.rs).  The u32 products
that can wrap in release builds carry an explicit `% 2^32`. -/
def fromDegree (s : List Char) : Except ErrorKind Nat :=
  match splitOnce s '°' with
  | none => .error .MissingDegree
  | some (cyc, rest0) =>
  match parseUint cyc (2 ^ 32) with
  | none => .error .ParseInt
  | some cycle_number =>
  match splitOnce rest0 '′' with
  | none => .error .MissingMinute
  | some (eo, rest1) =>
  match parseUint eo (2 ^ 32) with
  | none => .error .ParseInt
  | some epoch_offset =>
  if SUBSIDY_HALVING_INTERVAL ≤ epoch_offset then .error .EpochOffset
  else
  match splitOnce rest1 '″' with
  | none => .error .MissingSecond
  | some (po, rest2) =>
  match parseUint po (2 ^ 32) with
  | none => .error .ParseInt
  | some period_offset =>
  if DIFFCHANGE_INTERVAL ≤ period_offset then .error .PeriodOffset
  else
  let cycle_start_epoch := cycle_number * CYCLE_EPOCHS % 2 ^ 32
  let relationship :=
    period_offset + SUBSIDY_HALVING_INTERVAL * CYCLE_EPOCHS - epoch_offset
  if relationship % (SUBSIDY_HALVING_INTERVAL % DIFFCHANGE_INTERVAL) ≠ 0 then
    .error .EpochPeriodMismatch
  else
  let epochs_since_cycle_start :=
    relationship % DIFFCHANGE_INTERVAL / (SUBSIDY_HALVING_INTERVAL % DIFFCHANGE_INTERVAL)
  let epoch := (cycle_start_epoch + epochs_since_cycle_start) % 2 ^ 32
  let heightv := (epoch * SUBSIDY_HALVING_INTERVAL % 2 ^ 32 + epoch_offset) % 2 ^ 32
  match
    match splitOnce rest2 '‴' with
    | some (bo, rest3) =>
      match parseUint bo (2 ^ 64) with
      | none => none
      | some block_offset => some (block_offset, rest3)
    | none => some (0, rest2)
  with
  | none => .error .ParseInt
  | some (block_offset, rest3) =>
  if rest3 ≠ [] then .error .TrailingCharacters
  else if Height.subsidy heightv ≤ block_offset then .error .BlockOffset
  else .ok (Height.startingSat heightv + block_offset)

/-- `Sat::from_decimal` (src/crates/ordinals/src/sat.rs). -/
def fromDecimal (s : List Char) : Except ErrorKind Nat :=
  match splitOnce s '.' with
  | none => .error .MissingPeriod
  | some (hs, os) =>
  match parseUint hs (2 ^ 32) with
  | none => .error .ParseInt
  | some heightv =>
  match parseUint os (2 ^ 64) with
  | none => .error .ParseInt
  | some offset =>
  if Height.subsidy heightv ≤ offset then .error .BlockOffset
  else .ok (Height.startingSat heightv + offset)

instance {ε α : Type} [DecidableEq ε] [DecidableEq α] : DecidableEq (Except ε α) :=
  fun a b =>
    match a, b with
    | .ok x, .ok y =>
      if h : x = y then isTrue (by rw [h]) else isFalse (by simp [h])
    | .error x, .error y =>
      if h : x = y then isTrue (by rw [h]) else isFalse (by simp [h])
    | .ok _, .error _ => isFalse (by simp)
    | .error _, .ok _ => isFalse (by simp)

/-- The result of `impl FromStr for Sat` (src/crates/ordinals/src/sat.rs),
tagged with the sub-parser the dispatch chain selected.  The percentile
branch goes through `f64` arithmetic and is recorded as route only. -/
inductive FromStrResult where
  | byName (r : Except ErrorKind Nat)
  | byDegree (r : Except ErrorKind Nat)
  | byPercentile
  | byDecimal (r : Except ErrorKind Nat)
  | byInteger (r : Except ErrorKind Nat)
deriving DecidableEq, Repr

/-- The integer branch of `impl FromStr for Sat`: parse as u64, then fail
with `IntegerRange` past `Sat::LAST`. -/
def fromInteger (s : List Char) : Except ErrorKind Nat :=
  match parseUint s (2 ^ 64) with
  | none => .error .ParseInt
  | some n => if LAST < n then .error .IntegerRange else .ok n

/-- `impl FromStr for Sat` (src/crates/ordinals/src/sat.rs): dispatch on the
first matching rule — any ascii lowercase character selects the name form,
then `°` the degree form, `%` the percentile form, `.` the decimal form,
and otherwise the integer form. -/
def fromStr (s : List Char) : FromStrResult :=
  if s.any (fun c => 97 ≤ c.toNat && c.toNat ≤ 122) then .byName (fromName s)
  else if s.contains '°' then .byDegree (fromDegree s)
  else if s.contains '%' then .byPercentile
  else if s.contains '.' then .byDecimal (fromDecimal s)
  else .byInteger (fromInteger s)

end Sat

/-- `Chain` (src/src/chain.rs). -/
inductive Chain where
  | Mainnet
  | Testnet
  | Signet
  | Regtest
  | Testnet4
deriving DecidableEq, Repr

/-- `Chain::first_rune_height` (src/src/chain.rs). -/
def Chain.first_rune_height (c : Chain) : Nat :=
  SUBSIDY_HALVING_INTERVAL *
    match c with
    | .Mainnet => 4
    | .Regtest => 0
    | .Signet => 0
    | .Testnet => 12
    | .Testnet4 => 0

/-- `impl Display for Chain` (src/src/chain.rs). -/
def Chain.display (c : Chain) : String :=
  match c with
  | .Mainnet => "mainnet"
  | .Regtest => "regtest"
  | .Signet => "signet"
  | .Testnet => "testnet"
  | .Testnet4 => "testnet4"

/-- `impl FromStr for Chain` (src/src/chain.rs); the error message is
dropped, `none` stands for the error case. -/
def Chain.fromStr (s : String) : Option Chain :=
  if s = "mainnet" then some .Mainnet
  else if s = "regtest" then some .Regtest
  else if s = "signet" then some .Signet
  else if s = "testnet" then some .Testnet
  else none

namespace Rune

/-- `Rune::STEPS` (src/src/runes/rune.rs). -/
def STEPS : List Nat :=
  [0,
   26,
   702,
   18278,
   475254,
   12356630,
   321272406,
   8353082582,
   217180147158,
   5646683826134,
   146813779479510,
   3817158266467286,
   99246114928149462,
   2580398988131886038,
   67090373691429037014,
   1744349715977154962390,
   45353092615406029022166,
   1179180408000556754576342,
   30658690608014475618984918,
   797125955808376366093607894,
   20725274851017785518433805270,
   538857146126462423479278937046,
   14010285799288023010461252363222,
   364267430781488598271992561443798,
   9470953200318703555071806597538774,
   246244783208286292431866971536008150,
   6402364363415443603228541259936211926,
   166461473448801533683942072758341510102]

/-- `Rune::minimum_at_height` (src/src/runes/rune.rs).  `offset` is the
saturating u32 successor of the height; `INTERVAL = H / 12 = 17500`;
subtraction is natural-number (saturating) subtraction as in the source. -/
def minimum_at_height (chain : Chain) (h : Nat) : Nat :=
  let offset := min (h + 1) (2 ^ 32 - 1)
  let interval := SUBSIDY_HALVING_INTERVAL / 12
  let start := chain.first_rune_height
  let stop := start + SUBSIDY_HALVING_INTERVAL
  if offset < start then STEPS.getD 12 0
  else if stop ≤ offset then 0
  else
    let progress := offset - start
    let length := 12 - progress / interval
    let stepEnd := STEPS.getD (length - 1) 0
    let stepStart := STEPS.getD length 0
    let remainder := progress % interval
    stepStart - (stepStart - stepEnd) * remainder / interval

end Rune

/-- Which of the four degree coordinates are zero. -/
def zeroPattern (d : Degree) : Bool × Bool × Bool × Bool :=
  (d.hour == 0, d.minute == 0, d.second == 0, d.third == 0)

/-- Rarity as a function of the zero pattern alone, mirroring the branch
structure of `impl From<Sat> for Rarity`; used to state that rarity is
determined by which degree coordinates are zero. -/
def specRarityOfZeroPattern : Bool × Bool × Bool × Bool → Rarity
  | (h, m, s, t) =>
    if h && m && s && t then .Mythic
    else if m && s && t then .Legendary
    else if m && t then .Epic
    else if s && t then .Rare
    else if t then .Uncommon
    else .Common

/-- The tags `Runestone::decipher` recognizes and takes out of the field
map before testing the remaining keys for even unrecognized tags. -/
def RECOGNIZED_TAGS : List Nat :=
  [Tag.Claim, Tag.Deadline, Tag.DefaultOutput, Tag.Divisibility, Tag.Limit,
   Tag.Rune, Tag.Spacers, Tag.Symbol, Tag.Term, Tag.Flags]

/-- The burn condition as the claim words it: the Burn flag bit (127) is
set in the Flags field, or the Burn tag (126) appears in the field map, or
some even unrecognized tag appears in the field map. -/
def specBurnIndication (m : Message) : Bool :=
  (match lookupTag m.fields Tag.Flags with
   | some f => f.testBit Flag.Burn
   | none => false)
  || m.fields.any (fun kv => kv.1 == Tag.Burn)
  || m.fields.any (fun kv => kv.1 % 2 == 0 && !(RECOGNIZED_TAGS.contains kv.1))

/-- The raw (tag, value) pairs of a payload before the Body tag, duplicates
included, as the claim describes the field portion of the message. -/
def fieldPairs : List Nat → List (Nat × Nat)
  | t :: v :: rest => if t = Tag.Body then [] else (t, v) :: fieldPairs rest
  | _ => []

/-- The integers following the Body tag of a payload, or `[]` when field
parsing ends (payload exhausted or a trailing tag without a value) before a
Body tag is seen. -/
def bodyValues : List Nat → List Nat
  | [] => []
  | t :: rest =>
    if t = Tag.Body then rest
    else
      match rest with
      | [] => []
      | _ :: rest2 => bodyValues rest2

/-- Deduplicate an association list keeping the first occurrence of each
key, as the claim describes the field map. -/
def dedupKeepFirst (l : List (Nat × Nat)) : List (Nat × Nat) :=
  l.foldl (fun acc kv => insertIfAbsent acc kv.1 kv.2) []

/-- Split a list into groups of exactly three, dropping an incomplete
trailing group, as the claim describes the edict triples. -/
def chunks3 : List Nat → List (Nat × Nat × Nat)
  | a :: b :: c :: rest => (a, b, c) :: chunks3 rest
  | _ => []

/-- Turn edict triples into edicts, accumulating the id by saturating
addition of the deltas, as the claim describes. -/
def cumulativeEdicts (id : Nat) : List (Nat × Nat × Nat) → List Edict
  | [] => []
  | (a, b, c) :: rest =>
    let id1 := satAddU128 id a
    ⟨id1, b, c⟩ :: cumulativeEdicts id1 rest


theorem varint.encodeCont_of_le {n : Nat} (h : n ≤ 127) : varint.encodeCont n = [] := by
  rw [varint.encodeCont]; simp [h]

theorem varint.encodeCont_of_gt {n : Nat} (h : 127 < n) :
    varint.encodeCont n
      = varint.encodeCont (n / 128 - 1) ++ [(n / 128 - 1) % 256 ||| 128] := by
  rw [varint.encodeCont]; simp [Nat.not_le.2 h]

set_option maxRecDepth 4000 in
theorem varint.lor128 : ∀ a < 256, a ||| 128 = 128 + a % 128 := by decide

theorem varint.lor128m (m : Nat) : m % 256 ||| 128 = 128 + m % 128 := by
  have h := varint.lor128 (m % 256) (Nat.mod_lt _ (by norm_num))
  rwa [Nat.mod_mod_of_dvd m (by norm_num : (128:ℕ) ∣ 256)] at h

set_option maxRecDepth 8000 in
theorem varint.decodeGo_hi (m : Nat) (hm : m + 1 ≤ U128MAX) :
    ∀ (rest : List Nat) (i : Nat),
      varint.decodeGo (varint.encodeCont m ++ ((m % 256 ||| 128) :: rest)) 0 i
        = varint.decodeGo rest (m + 1) (i + (varint.encodeCont m).length + 1) := by
  induction m using Nat.strong_induction_on with
  | _ m IH =>
    intro rest i
    by_cases h127 : m ≤ 127
    · rw [varint.encodeCont_of_le h127, varint.lor128m]
      have hm128 : m % 128 = m := Nat.mod_eq_of_lt (by omega)
      simp only [List.nil_append, List.length_nil, varint.decodeGo, hm128]
      rw [if_neg (by omega)]
      have h1 : satMulU128 0 128 = 0 := by simp [satMulU128]
      have h2 : satAddU128 0 (128 + m - 127) = m + 1 := by
        simp only [satMulU128, satAddU128]; omega
      rw [h1, h2]
    · have hgt : 127 < m := by omega
      have hm'lt : m / 128 - 1 < m := by
        have h1 : m / 128 < m := Nat.div_lt_self (by omega) (by norm_num)
        omega
      rw [varint.encodeCont_of_gt hgt, List.append_assoc, List.singleton_append]
      rw [IH (m / 128 - 1) hm'lt (by omega)]
      rw [varint.lor128m m]
      simp only [varint.decodeGo]
      rw [if_neg (by omega)]
      have h1 : satMulU128 (m / 128 - 1 + 1) 128 = (m / 128) * 128 := by
        rw [show m / 128 - 1 + 1 = m / 128 by omega]
        have : m / 128 * 128 ≤ m := Nat.div_mul_le_self m 128
        simp only [satMulU128]; omega
      have h2 : satAddU128 ((m / 128) * 128) (128 + m % 128 - 127) = m + 1 := by
        have h3 : 128 * (m / 128) + m % 128 = m := Nat.div_add_mod m 128
        simp only [satAddU128]; omega
      rw [h1, h2]
      congr 1
      simp only [List.length_append, List.length_cons, List.length_nil]
      omega

set_option maxRecDepth 8000 in
theorem varint.decode_encode (n : Nat) (h : n ≤ U128MAX) :
    varint.decode (varint.encode n) = (n, (varint.encode n).length) := by
  by_cases h127 : n ≤ 127
  · rw [varint.encode, varint.encodeCont_of_le h127]
    have hm : n % 128 = n := Nat.mod_eq_of_lt (by omega)
    simp only [List.nil_append, varint.decode, varint.decodeGo, hm, List.length_cons,
      List.length_nil]
    rw [if_pos (by omega)]
    have h1 : satMulU128 0 128 = 0 := by simp [satMulU128]
    have h2 : satAddU128 0 n = n := by simp only [satAddU128]; omega
    rw [h1, h2]
  · have hgt : 127 < n := by omega
    rw [varint.encode, varint.encodeCont_of_gt hgt, varint.decode, List.append_assoc,
      List.singleton_append]
    rw [varint.decodeGo_hi (n / 128 - 1) (by have := Nat.div_le_self n 128; omega)]
    simp only [varint.decodeGo]
    rw [if_pos (Nat.mod_lt _ (by norm_num))]
    have h1 : satMulU128 (n / 128 - 1 + 1) 128 = (n / 128) * 128 := by
      rw [show n / 128 - 1 + 1 = n / 128 by omega]
      have : n / 128 * 128 ≤ n := Nat.div_mul_le_self n 128
      simp only [satMulU128]; omega
    have h2 : satAddU128 ((n / 128) * 128) (n % 128) = n := by
      have h3 : 128 * (n / 128) + n % 128 = n := Nat.div_add_mod n 128
      simp only [satAddU128]; omega
    rw [h1, h2]
    simp only [List.length_append, List.length_cons, List.length_nil, Prod.mk.injEq]
    exact ⟨trivial, by omega⟩

theorem varint.decodeGo_snd_ge : ∀ (l : List Nat) (n i : Nat), i ≤ (varint.decodeGo l n i).2 := by
  intro l
  induction l with
  | nil => intro n i; simp [varint.decodeGo]
  | cons b rest ih =>
    intro n i
    simp only [varint.decodeGo]
    split
    · simp
    · exact le_trans (Nat.le_succ i) (ih _ _)

theorem varint.decodeGo_snd_le :
    ∀ (l : List Nat) (n i : Nat), (varint.decodeGo l n i).2 ≤ i + l.length := by
  intro l
  induction l with
  | nil => intro n i; simp [varint.decodeGo]
  | cons b rest ih =>
    intro n i
    simp only [varint.decodeGo, List.length_cons]
    split
    · simp
    · have := ih (satAddU128 (satMulU128 n 128) (b - 127)) (i + 1)
      omega

theorem varint.decode_pos {p : List Nat} (h : p ≠ []) : 1 ≤ (varint.decode p).2 := by
  cases p with
  | nil => exact absurd rfl h
  | cons b rest =>
    show 1 ≤ (varint.decodeGo (b :: rest) 0 0).2
    simp only [varint.decodeGo]
    split
    · simp
    · exact varint.decodeGo_snd_ge _ _ _

theorem varint.decode_le (p : List Nat) : (varint.decode p).2 ≤ p.length := by
  have := varint.decodeGo_snd_le p 0 0
  simpa [varint.decode] using this

theorem varint.decodeGo_fst_le :
    ∀ (l : List Nat) (n i : Nat), n ≤ U128MAX → (varint.decodeGo l n i).1 ≤ U128MAX := by
  intro l
  induction l with
  | nil => intro n i h; simpa [varint.decodeGo]
  | cons b rest ih =>
    intro n i h
    simp only [varint.decodeGo]
    split
    · simp [satAddU128]
    · exact ih _ _ (by simp [satAddU128])

theorem varint.decodeGo_allhigh :
    ∀ (l : List Nat) (n i : Nat), (∀ b ∈ l, 128 ≤ b) →
      varint.decodeGo l n i
        = (l.foldl (fun a b => satAddU128 (satMulU128 a 128) (b - 127)) n, i + l.length) := by
  intro l
  induction l with
  | nil => intro n i _; simp [varint.decodeGo]
  | cons b rest ih =>
    intro n i h
    simp only [varint.decodeGo]
    rw [if_neg (by have := h b (by simp); omega)]
    rw [ih _ _ (fun x hx => h x (by simp [hx]))]
    simp only [List.foldl_cons, List.length_cons]
    exact Prod.ext rfl (by omega)

theorem Runestone.integersGo_length :
    ∀ (fuel : Nat) (p : List Nat), (Runestone.integersGo fuel p).length ≤ p.length := by
  intro fuel
  induction fuel with
  | zero => intro p; simp [Runestone.integersGo]
  | succ f ih =>
    intro p
    cases p with
    | nil => simp [Runestone.integersGo]
    | cons b rest =>
      simp only [Runestone.integersGo, List.length_cons]
      have h1 := ih ((b :: rest).drop (varint.decode (b :: rest)).2)
      have h2 : 1 ≤ (varint.decode (b :: rest)).2 := varint.decode_pos (by simp)
      simp only [List.length_drop, List.length_cons] at h1 ⊢
      omega

theorem Runestone.integersGo_nil : ∀ fuel : Nat, Runestone.integersGo fuel [] = [] := by
  intro fuel
  cases fuel <;> rfl

theorem Runestone.integersGo_congr :
    ∀ (f1 : Nat) (p : List Nat) (f2 : Nat), p.length ≤ f1 → p.length ≤ f2 →
      Runestone.integersGo f1 p = Runestone.integersGo f2 p := by
  intro f1
  induction f1 with
  | zero =>
    intro p f2 hp _
    have : p = [] := List.length_eq_zero.mp (by omega)
    subst this
    rw [Runestone.integersGo_nil, Runestone.integersGo_nil]
  | succ f ih =>
    intro p f2 hp hp2
    cases p with
    | nil => rw [Runestone.integersGo_nil, Runestone.integersGo_nil]
    | cons b rest =>
      cases f2 with
      | zero => simp at hp2
      | succ g =>
        simp only [Runestone.integersGo]
        congr 1
        have h2 : 1 ≤ (varint.decode (b :: rest)).2 := varint.decode_pos (by simp)
        apply ih
        · simp only [List.length_drop, List.length_cons]
          simp only [List.length_cons] at hp
          omega
        · simp only [List.length_drop, List.length_cons]
          simp only [List.length_cons] at hp2
          omega

theorem Runestone.integers_eq {p : List Nat} (h : p ≠ []) :
    Runestone.integers p
      = (varint.decode p).1 :: Runestone.integers (p.drop (varint.decode p).2) := by
  cases p with
  | nil => exact absurd rfl h
  | cons b rest =>
    show Runestone.integersGo (b :: rest).length (b :: rest) = _
    simp only [List.length_cons, Runestone.integersGo]
    congr 1
    have h2 : 1 ≤ (varint.decode (b :: rest)).2 := varint.decode_pos (by simp)
    apply Runestone.integersGo_congr
    · simp only [List.length_drop, List.length_cons]
      omega
    · exact le_refl _

theorem Runestone.integers_small :
    ∀ p : List Nat, (∀ b ∈ p, b < 128) → Runestone.integers p = p := by
  intro p
  induction p with
  | nil => intro _; rfl
  | cons b rest ih =>
    intro h
    have hb : b < 128 := h b (by simp)
    have hd : varint.decode (b :: rest) = (b, 1) := by
      simp only [varint.decode, varint.decodeGo]
      rw [if_pos hb]
      have : satAddU128 (satMulU128 0 128) b = b := by
        simp [satMulU128, satAddU128, U128MAX]
        omega
      rw [this]
    rw [Runestone.integers_eq (by simp), hd]
    simp only [List.drop_succ_cons, List.drop_zero]
    rw [ih (fun x hx => h x (by simp [hx]))]

/-- C5: varint round trip. `decode (encode n) = (n, encode(n).len())` for
every u128 `n`; `encode` always emits at least one byte;
`encode 0 = [0x00]`, `encode 127 = [0x7F]`, `encode 128 = [0x80, 0x00]`;
and decoding the encoding of `u128::MAX` returns `(u128::MAX, 19)`. -/
theorem varint_round_trip :
    (∀ n : Nat, n ≤ U128MAX →
      varint.decode (varint.encode n) = (n, (varint.encode n).length))
    ∧ (∀ n : Nat, 1 ≤ (varint.encode n).length)
    ∧ varint.encode 0 = [0x00]
    ∧ varint.encode 127 = [0x7F]
    ∧ varint.encode 128 = [0x80, 0x00]
    ∧ varint.decode (varint.encode U128MAX) = (U128MAX, 19) := by
  have hlen : (varint.encode U128MAX).length = 19 := by
    simp [varint.encode, varint.encodeCont_of_gt, varint.encodeCont_of_le, U128MAX]
  refine ⟨varint.decode_encode, ?_, ?_, ?_, ?_, ?_⟩
  · intro n; simp [varint.encode]
  · norm_num [varint.encode, varint.encodeCont_of_le]
  · norm_num [varint.encode, varint.encodeCont_of_le]
  · rw [varint.encode, varint.encodeCont_of_gt (by norm_num)]
    norm_num [varint.encodeCont_of_le]
  · rw [varint.decode_encode U128MAX (le_refl _), hlen]

/-- Witness for `varint_round_trip`: the round trip instantiated at 300. -/
theorem varint_round_trip_witness :
    varint.decode (varint.encode 300) = (300, (varint.encode 300).length) :=
  varint_round_trip.1 300 (by norm_num [U128MAX])

/-- C9: `varint::decode` is total on every byte buffer: the consumed count
never exceeds the buffer length; a non-empty buffer always consumes at
least one byte; a buffer whose bytes all have the high bit set (a
truncated varint) returns the partially accumulated value with the whole
buffer consumed, not an error; the accumulated value saturates at
`u128::MAX`; consequently `Runestone::integers` terminates, producing at
most one integer per payload byte and satisfying the loop equation on
every non-empty payload. -/
theorem varint_decode_total_and_integers :
    ∀ buffer : List Nat,
      (varint.decode buffer).2 ≤ buffer.length
      ∧ (buffer ≠ [] → 1 ≤ (varint.decode buffer).2)
      ∧ ((∀ b ∈ buffer, 128 ≤ b) →
          varint.decode buffer
            = (buffer.foldl (fun n b => satAddU128 (satMulU128 n 128) (b - 127)) 0,
               buffer.length))
      ∧ (varint.decode buffer).1 ≤ U128MAX
      ∧ (Runestone.integers buffer).length ≤ buffer.length
      ∧ (buffer ≠ [] →
          Runestone.integers buffer
            = (varint.decode buffer).1
                :: Runestone.integers (buffer.drop (varint.decode buffer).2)) := by
  intro buffer
  refine ⟨varint.decode_le buffer, fun h => varint.decode_pos h, fun h => ?_,
    varint.decodeGo_fst_le buffer 0 0 (by simp [U128MAX]),
    Runestone.integersGo_length _ _, fun h => Runestone.integers_eq h⟩
  rw [varint.decode, varint.decodeGo_allhigh buffer 0 0 h]
  simp

/-- Witness for `varint_decode_total_and_integers` at the all-high buffer
`[128, 128]`. -/
theorem varint_decode_total_witness :
    1 ≤ (varint.decode [128, 128]).2
    ∧ varint.decode [128, 128]
        = (([128, 128] : List Nat).foldl
            (fun n b => satAddU128 (satMulU128 n 128) (b - 127)) 0,
           ([128, 128] : List Nat).length)
    ∧ Runestone.integers [128, 128]
        = (varint.decode [128, 128]).1
            :: Runestone.integers (([128, 128] : List Nat).drop (varint.decode [128, 128]).2) :=
  ⟨(varint_decode_total_and_integers [128, 128]).2.1 (by simp),
   (varint_decode_total_and_integers [128, 128]).2.2.1 (by decide),
   (varint_decode_total_and_integers [128, 128]).2.2.2.2.2 (by simp)⟩

theorem rarityOfDegree_eq_pattern (d : Degree) :
    rarityOfDegree d = specRarityOfZeroPattern (zeroPattern d) := by
  unfold rarityOfDegree specRarityOfZeroPattern zeroPattern
  by_cases h : d.hour = 0 <;> by_cases m : d.minute = 0 <;>
    by_cases s : d.second = 0 <;> by_cases t : d.third = 0 <;>
    simp [h, m, s, t]

/-- C1 counterexample: `Sat(50·100_000_000·210_000)` is the first sat of
halving epoch 1, at height 210000; since `210000 mod 2016 = 336 ≠ 0` its
second coordinate is non-zero, so its rarity is not `Rare` (it is
`Epic`), contradicting the claim. -/
theorem sat_rarity_first_epoch_sat_not_rare :
    Sat.rarity (50 * COIN_VALUE * 210000) ≠ Rarity.Rare := by decide

/-- C1 (amended): rarity is determined by which degree coordinates are
zero — `Sat::rarity` factors through the zero pattern of the degree — and
`Sat(0)` is Mythic, `Sat(1)` Common, `Sat(50·100_000_000)` Uncommon, and
`Sat(50·100_000_000·210_000)` Epic (the first sat of a halving epoch,
not of a difficulty period, hence not Rare). -/
theorem sat_rarity_spec :
    (∀ s : Nat, Sat.rarity s = specRarityOfZeroPattern (zeroPattern (Sat.degree s)))
    ∧ Sat.rarity 0 = Rarity.Mythic
    ∧ Sat.rarity 1 = Rarity.Common
    ∧ Sat.rarity (50 * COIN_VALUE) = Rarity.Uncommon
    ∧ Sat.rarity (50 * COIN_VALUE * 210000) = Rarity.Epic :=
  ⟨fun _ => rarityOfDegree_eq_pattern _, by decide, by decide, by decide, by decide⟩

theorem sat_from_degree_ok_mod336 :
    ∀ (s : List Char) (n : Nat), Sat.fromDegree s = .ok n →
      ∃ cyc rest0 eo rest1 po rest2 c e p,
        splitOnce s '°' = some (cyc, rest0)
        ∧ splitOnce rest0 '′' = some (eo, rest1)
        ∧ splitOnce rest1 '″' = some (po, rest2)
        ∧ parseUint cyc (2 ^ 32) = some c
        ∧ parseUint eo (2 ^ 32) = some e
        ∧ parseUint po (2 ^ 32) = some p
        ∧ (p + SUBSIDY_HALVING_INTERVAL * CYCLE_EPOCHS - e) % 336 = 0 := by
  intro s n h
  unfold Sat.fromDegree at h
  iterate 18 (all_goals (first | split at h | cases h | (dsimp only at h) | skip))
  rename_i x6 cyc rest0 hsp1 x5 c hp1 x4 eo rest1 hsp2 x3 e hp2 hle1 x2 po rest2 hsp3 x1 p hp3 hle2 x0 bo rest3 hinner hrest hmod hbo
  push_neg at hmod
  have h336 : SUBSIDY_HALVING_INTERVAL % DIFFCHANGE_INTERVAL = 336 := by
    norm_num [SUBSIDY_HALVING_INTERVAL, DIFFCHANGE_INTERVAL]
  rw [h336] at hmod
  exact ⟨cyc, rest0, eo, rest1, po, rest2, c, e, p, hsp1, hsp2, hsp3, hp1, hp2, hp3, hmod⟩

theorem opt_filter_getD_le (o : Option Nat) (k : Nat) :
    ((o.bind (fun d => if d ≤ k then some d else none)).getD 0) ≤ k := by
  cases o with
  | none => simp
  | some v =>
    by_cases h : v ≤ k
    · simp [h]
    · simp [h]

theorem opt_map_min_eq_some {o : Option Nat} {k l : Nat}
    (h : o.map (fun x => min x k) = some l) : l ≤ k := by
  cases o with
  | none => simp at h
  | some v =>
    simp at h
    omega

/-- C2 counterexample: a runestone whose etching carries divisibility 39
(payload `Flags=1(Etch), Divisibility=39`) is not rejected by
`decipher`: it deciphers to a runestone with an etching whose
out-of-range divisibility was dropped to the default 0. -/
theorem runestone_divisibility_39_accepted :
    Runestone.decipherPayload [2, 1, 1, 39]
      = { burn := false, claim := none, default_output := none, edicts := [],
          etching := some { divisibility := 0, rune := none, spacers := 0,
                            symbol := none, mint := none } } := by decide

/-- C2 (amended): `decipher` accepts runestones whose etching fields are
out of range, ignoring an out-of-range divisibility or spacers value
(defaulting to 0) and clamping the mint limit to `MAX_LIMIT = 2^64`;
consequently every deciphered etching has divisibility ≤ 38,
spacers ≤ 2²⁷−1, and mint limit ≤ 2⁶⁴. -/
theorem runestone_etching_fields_in_range :
    ∀ (payload : List Nat) (e : Etching),
      (Runestone.decipherPayload payload).etching = some e →
        e.divisibility ≤ MAX_DIVISIBILITY
        ∧ e.spacers ≤ MAX_SPACERS
        ∧ (∀ (m : Mint) (l : Nat), e.mint = some m → m.limit = some l → l ≤ MAX_LIMIT) := by
  intro payload e h
  unfold Runestone.decipherPayload Runestone.decipherIntegers at h
  dsimp only at h
  split at h
  · injection h with h
    subst h
    refine ⟨opt_filter_getD_le _ _, opt_filter_getD_le _ _, ?_⟩
    intro m l hm hl
    split at hm
    · injection hm with hm
      subst hm
      exact opt_map_min_eq_some hl
    · cases hm
  · cases h

/-- Witness for `runestone_etching_fields_in_range` at the divisibility-39
payload. -/
theorem runestone_etching_fields_in_range_witness :
    ({ divisibility := 0, rune := none, spacers := 0, symbol := none,
       mint := none } : Etching).divisibility ≤ MAX_DIVISIBILITY
    ∧ ({ divisibility := 0, rune := none, spacers := 0, symbol := none,
         mint := none } : Etching).spacers ≤ MAX_SPACERS
    ∧ (∀ (m : Mint) (l : Nat),
        ({ divisibility := 0, rune := none, spacers := 0, symbol := none,
           mint := none } : Etching).mint = some m → m.limit = some l → l ≤ MAX_LIMIT) :=
  runestone_etching_fields_in_range [2, 1, 1, 39]
    { divisibility := 0, rune := none, spacers := 0, symbol := none, mint := none }
    (by decide)


theorem lookupTag_filter_ne (l : List (Nat × Nat)) (t k : Nat) (h : k ≠ t) :
    lookupTag (l.filter (fun kv => kv.1 != t)) k = lookupTag l k := by
  induction l with
  | nil => rfl
  | cons kv rest ih =>
    by_cases h1 : kv.1 = t
    · rw [List.filter_cons, if_neg (by simp [h1]), ih, lookupTag, if_neg (by omega)]
    · rw [List.filter_cons, if_pos (by simp [h1]), lookupTag, lookupTag]
      split
      · rfl
      · exact ih

theorem and_two_eq (x : Nat) : x &&& 2 = if x / 2 % 2 = 1 then 2 else 0 := by
  have h := Nat.and_two_pow x 1
  rw [Nat.testBit_to_div_mod] at h
  by_cases hx : x / 2 % 2 = 1 <;> simp [hx] at h <;> simp [hx, h]

theorem take_etch_snd (f : Nat) :
    (Flag.take Flag.Etch f).2 = if f % 2 = 1 then f - 1 else f := by
  simp only [Flag.take, Flag.mask, Flag.Etch]
  rw [show (1 <<< 0 : Nat) = 1 by rfl, Nat.and_one_is_mod]
  by_cases h1 : f % 2 = 1
  · rw [if_pos (by simp [h1]), if_pos h1]
  · rw [if_neg (by simp; omega), if_neg h1]

theorem take_mint_snd (x : Nat) :
    (Flag.take Flag.Mint x).2 = if x / 2 % 2 = 1 then x - 2 else x := by
  simp only [Flag.take, Flag.mask, Flag.Mint]
  rw [show (1 <<< 1 : Nat) = 2 by rfl, and_two_eq]
  by_cases h2 : x / 2 % 2 = 1
  · rw [if_pos h2, if_pos (by simp), if_pos h2]
  · rw [if_neg h2, if_neg (by simp), if_neg h2]

theorem clear_etch_mint (f : Nat) :
    (Flag.take Flag.Mint (Flag.take Flag.Etch f).2).2 = f - f % 4 := by
  rw [take_etch_snd]
  by_cases h1 : f % 2 = 1
  · rw [if_pos h1, take_mint_snd]
    by_cases h2 : (f - 1) / 2 % 2 = 1
    · rw [if_pos h2]; omega
    · rw [if_neg h2]; omega
  · rw [if_neg h1, take_mint_snd]
    by_cases h2 : f / 2 % 2 = 1
    · rw [if_pos h2]; omega
    · rw [if_neg h2]; omega

theorem lookup_flags_after_takes (F : List (Nat × Nat)) :
    lookupTag ((((((((((F.filter (fun kv => kv.1 != Tag.Claim)).filter
      (fun kv => kv.1 != Tag.Deadline)).filter
      (fun kv => kv.1 != Tag.DefaultOutput)).filter
      (fun kv => kv.1 != Tag.Divisibility)).filter
      (fun kv => kv.1 != Tag.Limit)).filter
      (fun kv => kv.1 != Tag.Rune)).filter
      (fun kv => kv.1 != Tag.Spacers)).filter
      (fun kv => kv.1 != Tag.Symbol)).filter
      (fun kv => kv.1 != Tag.Term))) Tag.Flags
      = lookupTag F Tag.Flags := by
  rw [lookupTag_filter_ne _ _ _ (by decide), lookupTag_filter_ne _ _ _ (by decide),
    lookupTag_filter_ne _ _ _ (by decide), lookupTag_filter_ne _ _ _ (by decide),
    lookupTag_filter_ne _ _ _ (by decide), lookupTag_filter_ne _ _ _ (by decide),
    lookupTag_filter_ne _ _ _ (by decide), lookupTag_filter_ne _ _ _ (by decide),
    lookupTag_filter_ne _ _ _ (by decide)]

theorem any_even_after_takes (F : List (Nat × Nat)) :
    ((((((((((F.filter (fun kv => kv.1 != Tag.Claim)).filter
      (fun kv => kv.1 != Tag.Deadline)).filter
      (fun kv => kv.1 != Tag.DefaultOutput)).filter
      (fun kv => kv.1 != Tag.Divisibility)).filter
      (fun kv => kv.1 != Tag.Limit)).filter
      (fun kv => kv.1 != Tag.Rune)).filter
      (fun kv => kv.1 != Tag.Spacers)).filter
      (fun kv => kv.1 != Tag.Symbol)).filter
      (fun kv => kv.1 != Tag.Term)).filter
      (fun kv => kv.1 != Tag.Flags)).any (fun kv => kv.1 % 2 == 0)
      = F.any (fun kv => kv.1 % 2 == 0 && !(RECOGNIZED_TAGS.contains kv.1)) := by
  simp only [List.any_filter, RECOGNIZED_TAGS, Tag.Claim, Tag.Deadline,
    Tag.DefaultOutput, Tag.Divisibility, Tag.Limit, Tag.Rune, Tag.Spacers,
    Tag.Symbol, Tag.Term, Tag.Flags]
  congr 1
  funext a
  simp only [List.contains_cons, List.contains_nil, Bool.or_false, Bool.not_or, bne]
  ac_rfl

/-- C7 counterexample: the payload `Flags=4` (flag bit 2, neither the Burn
flag 127 nor the Burn tag 126 nor any even unrecognized tag) still
yields `burn = true`, contradicting the claimed "exactly when". -/
theorem runestone_burn_flag_bit_two :
    (Runestone.decipherPayload [2, 4]).burn = true
    ∧ specBurnIndication (Message.fromIntegers (Runestone.integers [2, 4])) = false := by
  decide

theorem runestone_burn_iff :
    ∀ payload : List Nat,
      ((Runestone.decipherPayload payload).burn = true
        ↔ (4 ≤ (lookupTag (Message.fromIntegers (Runestone.integers payload)).fields
                  Tag.Flags).getD 0
           ∨ (Message.fromIntegers (Runestone.integers payload)).fields.any
               (fun kv => kv.1 % 2 == 0 && !(RECOGNIZED_TAGS.contains kv.1)) = true)) := by
  intro payload
  unfold Runestone.decipherPayload Runestone.decipherIntegers
  dsimp only [fieldsTake]
  rw [clear_etch_mint, lookup_flags_after_takes, any_even_after_takes]
  simp only [Bool.or_eq_true, bne_iff_ne, ne_eq]
  have h : ∀ f : Nat, ¬(f - f % 4 = 0) ↔ 4 ≤ f := by intro f; omega
  rw [h]

/-- C7 (amended): a deciphered runestone has `burn = true` exactly when
the Flags field has some bit other than Etch (0) and Mint (1) set —
equivalently its value is at least 4 — or an even tag outside the
recognized set appears in the field map; in particular a payload with
only recognized tags and only the Etch and Mint flag bits has
`burn = false`. -/
theorem runestone_burn_spec :
    (∀ payload : List Nat,
      ((Runestone.decipherPayload payload).burn = true
        ↔ (4 ≤ (lookupTag (Message.fromIntegers (Runestone.integers payload)).fields
                  Tag.Flags).getD 0
           ∨ (Message.fromIntegers (Runestone.integers payload)).fields.any
               (fun kv => kv.1 % 2 == 0 && !(RECOGNIZED_TAGS.contains kv.1)) = true)))
    ∧ (∀ payload : List Nat,
        (∀ kv ∈ (Message.fromIntegers (Runestone.integers payload)).fields,
            kv.1 ∈ RECOGNIZED_TAGS) →
        (lookupTag (Message.fromIntegers (Runestone.integers payload)).fields
            Tag.Flags).getD 0 ≤ 3 →
        (Runestone.decipherPayload payload).burn = false) := by
  refine ⟨runestone_burn_iff, ?_⟩
  intro payload hrec hle
  cases hbv : (Runestone.decipherPayload payload).burn
  · rfl
  · exfalso
    have hb2 : (Runestone.decipherPayload payload).burn = true := hbv
    rw [runestone_burn_iff payload] at hb2
    rcases hb2 with h4 | hany
    · omega
    · simp only [List.any_eq_true, Bool.and_eq_true, Bool.not_eq_true'] at hany
      obtain ⟨kv, hmem, heven, hnc⟩ := hany
      have h1 : RECOGNIZED_TAGS.contains kv.1 = true :=
        List.elem_eq_true_of_mem (hrec kv hmem)
      rw [h1] at hnc
      cases hnc

/-- Witness for `runestone_burn_spec` at concrete payloads. -/
theorem runestone_burn_spec_witness :
    ((Runestone.decipherPayload [2, 132, 0]).burn = true
      ↔ (4 ≤ (lookupTag (Message.fromIntegers (Runestone.integers [2, 132, 0])).fields
                Tag.Flags).getD 0
         ∨ (Message.fromIntegers (Runestone.integers [2, 132, 0])).fields.any
             (fun kv => kv.1 % 2 == 0 && !(RECOGNIZED_TAGS.contains kv.1)) = true))
    ∧ (Runestone.decipherPayload [2, 3]).burn = false :=
  ⟨runestone_burn_spec.1 [2, 132, 0],
   runestone_burn_spec.2 [2, 3] (by decide) (by decide)⟩

theorem edictsFrom_eq_cumulative :
    ∀ (id : Nat) (l : List Nat), edictsFrom id l = cumulativeEdicts id (chunks3 l) := by
  intro id l
  induction id, l using edictsFrom.induct with
  | case1 id a b c rest id1 ih =>
    simp only [edictsFrom, chunks3, cumulativeEdicts]
    rw [ih]
  | case2 lst i h =>
    match lst, h with
    | [], _ => rfl
    | [a], _ => rfl
    | [a, b], _ => rfl
    | a :: b :: c :: rest, h => exact (h a b c rest rfl).elim

theorem fromIntegersGo_spec :
    ∀ (payload : List Nat) (acc : List (Nat × Nat)),
      Message.fromIntegersGo payload acc
        = ⟨(fieldPairs payload).foldl (fun a kv => insertIfAbsent a kv.1 kv.2) acc,
           edictsFrom 0 (bodyValues payload)⟩ := by
  intro payload acc
  induction payload, acc using Message.fromIntegersGo.induct with
  | case1 fields => rfl
  | case2 rest fields =>
    cases rest <;> simp [Message.fromIntegersGo, fieldPairs, bodyValues]
  | case3 tag fields hne =>
    simp [Message.fromIntegersGo, fieldPairs, bodyValues, hne, edictsFrom]
  | case4 tag acc hne v rest2 ih =>
    simp [Message.fromIntegersGo, fieldPairs, bodyValues, hne, ih]

theorem lookupTag_append (l1 l2 : List (Nat × Nat)) (k : Nat) :
    lookupTag (l1 ++ l2) k = (lookupTag l1 k).or (lookupTag l2 k) := by
  induction l1 with
  | nil => simp [lookupTag]
  | cons kv rest ih =>
    simp only [List.cons_append, lookupTag]
    split
    · rfl
    · exact ih

theorem foldl_insert_lookup :
    ∀ (l : List (Nat × Nat)) (acc : List (Nat × Nat)) (k : Nat),
      lookupTag (l.foldl (fun a kv => insertIfAbsent a kv.1 kv.2) acc) k
        = (lookupTag acc k).or (lookupTag l k) := by
  intro l
  induction l with
  | nil => intro acc k; simp [lookupTag]
  | cons kv rest ih =>
    intro acc k
    simp only [List.foldl_cons, lookupTag]
    rw [ih]
    unfold insertIfAbsent
    by_cases hs : (lookupTag acc kv.1).isSome
    · rw [if_pos hs]
      by_cases hk : kv.1 = k
      · subst hk
        obtain ⟨w, hw⟩ := Option.isSome_iff_exists.mp hs
        rw [hw, if_pos rfl]
        rfl
      · rw [if_neg (by omega)]
    · rw [if_neg hs, lookupTag_append]
      by_cases hk : kv.1 = k
      · subst hk
        have hn : lookupTag acc kv.1 = none := Option.not_isSome_iff_eq_none.mp hs
        rw [hn, if_pos rfl]
        simp [lookupTag]
      · rw [if_neg (by omega)]
        simp [lookupTag, hk]

/-- C10: `Message::from_integers` keeps only the first occurrence of a
duplicated tag (its field map is the first-occurrence deduplication of
the raw tag/value pairs before the Body tag, so a lookup returns the
first occurrence's value) and raises no error; a trailing tag with no
value ends field parsing; edicts are the integers after the Body tag in
groups of exactly three with any incomplete trailing group ignored and
the id accumulated by saturating addition of the deltas. -/
theorem message_from_integers_spec :
    (∀ payload : List Nat,
      Message.fromIntegers payload
        = { fields := dedupKeepFirst (fieldPairs payload),
            edicts := cumulativeEdicts 0 (chunks3 (bodyValues payload)) })
    ∧ (∀ (payload : List Nat) (k : Nat),
        lookupTag (Message.fromIntegers payload).fields k
          = lookupTag (fieldPairs payload) k) := by
  constructor
  · intro payload
    rw [Message.fromIntegers, fromIntegersGo_spec, edictsFrom_eq_cumulative]
    rfl
  · intro payload k
    rw [Message.fromIntegers, fromIntegersGo_spec]
    dsimp only
    rw [foldl_insert_lookup]
    simp [lookupTag]

theorem chain_first_rune_height_le (c : Chain) : c.first_rune_height ≤ 2520000 := by
  cases c <;> simp [Chain.first_rune_height, SUBSIDY_HALVING_INTERVAL]

/-- C4: for every chain and u32 height `h`: below `first_rune_height` the
minimum is the largest floor `STEPS[12]`; at or after
`first_rune_height + 210000` it is 0; in between it follows the 12-step
descending table interpolated linearly with interval `210000/12 = 17500`. -/
theorem rune_minimum_at_height_spec :
    ∀ (chain : Chain) (h : Nat), h < 2 ^ 32 →
      (h < chain.first_rune_height →
        Rune.minimum_at_height chain h = Rune.STEPS.getD 12 0)
      ∧ (chain.first_rune_height + SUBSIDY_HALVING_INTERVAL ≤ h →
          Rune.minimum_at_height chain h = 0)
      ∧ (chain.first_rune_height ≤ h + 1 →
          h + 1 < chain.first_rune_height + SUBSIDY_HALVING_INTERVAL →
          Rune.minimum_at_height chain h
            = Rune.STEPS.getD (12 - (h + 1 - chain.first_rune_height) / 17500) 0
              - (Rune.STEPS.getD (12 - (h + 1 - chain.first_rune_height) / 17500) 0
                  - Rune.STEPS.getD (12 - (h + 1 - chain.first_rune_height) / 17500 - 1) 0)
                * ((h + 1 - chain.first_rune_height) % 17500) / 17500) := by
  intro chain h hu
  have hs := chain_first_rune_height_le chain
  have hH : SUBSIDY_HALVING_INTERVAL = 210000 := rfl
  refine ⟨?_, ?_, ?_⟩
  · intro hlt
    unfold Rune.minimum_at_height
    rw [show min (h + 1) (2 ^ 32 - 1) = h + 1 by omega]
    by_cases hc : h + 1 < chain.first_rune_height
    · rw [if_pos hc]
    · rw [if_neg hc]
      have heq : h + 1 = chain.first_rune_height := by omega
      rw [if_neg (by rw [hH]; omega)]
      rw [heq]
      simp only [Nat.sub_self, Nat.zero_div, Nat.sub_zero, Nat.zero_mod, Nat.mul_zero,
        Nat.zero_div]
  · intro hge
    unfold Rune.minimum_at_height
    by_cases hbig : h + 1 ≤ 2 ^ 32 - 1
    · rw [show min (h + 1) (2 ^ 32 - 1) = h + 1 by omega]
      rw [if_neg (by omega), if_pos (by omega)]
    · rw [show min (h + 1) (2 ^ 32 - 1) = 2 ^ 32 - 1 by omega]
      rw [if_neg (by omega), if_pos (by rw [hH]; omega)]
  · intro hge hlt
    unfold Rune.minimum_at_height
    rw [show min (h + 1) (2 ^ 32 - 1) = h + 1 by rw [hH] at hlt; omega]
    rw [if_neg (by omega), if_neg (by omega)]
    rw [show SUBSIDY_HALVING_INTERVAL / 12 = 17500 by rw [hH]]

/-- Witness for `rune_minimum_at_height_spec` at concrete heights on
mainnet and regtest. -/
theorem rune_minimum_at_height_witness :
    Rune.minimum_at_height Chain.Mainnet 0 = 99246114928149462
    ∧ Rune.minimum_at_height Chain.Regtest 210000 = 0
    ∧ Rune.minimum_at_height Chain.Mainnet 839999 = 99246114928149462 := by
  refine ⟨?_, ?_, ?_⟩
  · have h := (rune_minimum_at_height_spec Chain.Mainnet 0 (by norm_num)).1 (by decide)
    rw [h]
    decide
  · have h := (rune_minimum_at_height_spec Chain.Regtest 210000 (by norm_num)).2.1 (by decide)
    rw [h]
  · have h := (rune_minimum_at_height_spec Chain.Mainnet 839999 (by norm_num)).2.2
      (by decide) (by decide)
    rw [h]
    decide


theorem parseUint_chars {s : List Char} {bound n : Nat} (h : parseUint s bound = some n) :
    ∀ c ∈ s, c = '+' ∨ ('0' ≤ c ∧ c ≤ '9') := by
  intro c hc
  unfold parseUint at h
  split at h
  · rename_i hhead
    dsimp only at h
    split at h
    · cases h
    · split at h
      · rename_i hall
        cases s with
        | nil => simp at hc
        | cons c0 rest =>
          simp only [List.head?_cons, Option.some.injEq] at hhead
          rcases List.mem_cons.mp hc with hc0 | hcr
          · exact Or.inl (hc0.trans hhead)
          · right
            have h2 := List.all_eq_true.mp hall c (by simpa using hcr)
            simpa using h2
      · cases h
  · dsimp only at h
    split at h
    · cases h
    · split at h
      · rename_i hall
        right
        have h2 := List.all_eq_true.mp hall c hc
        simpa using h2
      · cases h

theorem parseUint_no_marker {s : List Char} {bound n : Nat}
    (h : parseUint s bound = some n) :
    s.any (fun c => 97 ≤ c.toNat && c.toNat ≤ 122) = false
    ∧ s.contains '°' = false
    ∧ s.contains '%' = false
    ∧ s.contains '.' = false := by
  have hcls := parseUint_chars h
  refine ⟨?_, ?_, ?_, ?_⟩
  · rw [List.any_eq_false]
    intro c hc
    rcases hcls c hc with h1 | ⟨h2, h3⟩
    · subst h1; decide
    · simp only [Char.le_def] at h2 h3
      simp only [Bool.and_eq_true, decide_eq_true_eq, not_and]
      intro hge
      change c.toNat ≤ 57 at h3
      change 48 ≤ c.toNat at h2
      omega
  · cases hb : s.contains '°'
    · rfl
    · rcases hcls '°' (List.mem_of_elem_eq_true hb) with h1 | ⟨h2, h3⟩
      · cases h1
      · exact absurd h3 (by decide)
  · cases hb : s.contains '%'
    · rfl
    · rcases hcls '%' (List.mem_of_elem_eq_true hb) with h1 | ⟨h2, h3⟩
      · cases h1
      · exact absurd h2 (by decide)
  · cases hb : s.contains '.'
    · rfl
    · rcases hcls '.' (List.mem_of_elem_eq_true hb) with h1 | ⟨h2, h3⟩
      · cases h1
      · exact absurd h2 (by decide)

theorem not_mem_of_contains_false {l : List Char} {a : Char}
    (h : l.contains a = false) : a ∉ l := by
  intro hm
  have h2 : l.contains a = true := List.elem_eq_true_of_mem hm
  rw [h2] at h
  cases h

/-- C6: `Sat::from_str` dispatches by exactly the first matching rule —
any ascii lowercase character selects the name form, else `°` the degree
form, else `%` the percentile form, else `.` the decimal form, else the
integer form — and the integer form succeeds only for values below
`SUPPLY = 2_099_999_997_690_000`, failing with `IntegerRange` when the
u64 parse succeeds with a value at or above that bound. -/
theorem sat_from_str_dispatch :
    ∀ s : List Char,
      (s.any (fun c => 97 ≤ c.toNat && c.toNat ≤ 122) = true →
        Sat.fromStr s = .byName (Sat.fromName s))
      ∧ (s.any (fun c => 97 ≤ c.toNat && c.toNat ≤ 122) = false →
          s.contains '°' = true → Sat.fromStr s = .byDegree (Sat.fromDegree s))
      ∧ (s.any (fun c => 97 ≤ c.toNat && c.toNat ≤ 122) = false →
          s.contains '°' = false → s.contains '%' = true →
          Sat.fromStr s = .byPercentile)
      ∧ (s.any (fun c => 97 ≤ c.toNat && c.toNat ≤ 122) = false →
          s.contains '°' = false → s.contains '%' = false → s.contains '.' = true →
          Sat.fromStr s = .byDecimal (Sat.fromDecimal s))
      ∧ (s.any (fun c => 97 ≤ c.toNat && c.toNat ≤ 122) = false →
          s.contains '°' = false → s.contains '%' = false → s.contains '.' = false →
          Sat.fromStr s = .byInteger (Sat.fromInteger s))
      ∧ (∀ n : Nat, Sat.fromStr s = .byInteger (.ok n) → n < Sat.SUPPLY)
      ∧ (∀ n : Nat, parseUint s (2 ^ 64) = some n → Sat.SUPPLY ≤ n →
          Sat.fromStr s = .byInteger (.error .IntegerRange)) := by
  intro s
  refine ⟨?_, ?_, ?_, ?_, ?_, ?_, ?_⟩
  · intro h1
    unfold Sat.fromStr
    rw [if_pos h1]
  · intro h1 h2
    unfold Sat.fromStr
    rw [if_neg (by simp [h1]), if_pos h2]
  · intro h1 h2 h3
    unfold Sat.fromStr
    rw [if_neg (by simp [h1]), if_neg (by simpa using not_mem_of_contains_false h2), if_pos h3]
  · intro h1 h2 h3 h4
    unfold Sat.fromStr
    rw [if_neg (by simp [h1]), if_neg (by simpa using not_mem_of_contains_false h2), if_neg (by simpa using not_mem_of_contains_false h3), if_pos h4]
  · intro h1 h2 h3 h4
    unfold Sat.fromStr
    rw [if_neg (by simp [h1]), if_neg (by simpa using not_mem_of_contains_false h2), if_neg (by simpa using not_mem_of_contains_false h3),
      if_neg (by simpa using not_mem_of_contains_false h4)]
  · intro n h
    unfold Sat.fromStr at h
    split at h
    · cases h
    · split at h
      · cases h
      · split at h
        · cases h
        · split at h
          · cases h
          · injection h with h
            unfold Sat.fromInteger at h
            split at h
            · cases h
            · split at h
              · cases h
              · rename_i hle
                injection h with h
                unfold Sat.LAST Sat.SUPPLY at *
                omega
  · intro n hp hge
    obtain ⟨m1, m2, m3, m4⟩ := parseUint_no_marker hp
    unfold Sat.fromStr
    rw [if_neg (by simp [m1]), if_neg (by simpa using not_mem_of_contains_false m2), if_neg (by simpa using not_mem_of_contains_false m3),
      if_neg (by simpa using not_mem_of_contains_false m4)]
    unfold Sat.fromInteger
    rw [hp]
    dsimp only
    have hlt : Sat.LAST < n := by
      unfold Sat.SUPPLY at hge
      unfold Sat.LAST Sat.SUPPLY
      omega
    rw [if_pos hlt]

/-- Witness for `sat_from_str_dispatch` at concrete strings covering all
five routes and both integer outcomes. -/
theorem sat_from_str_dispatch_witness :
    Sat.fromStr "a0".data = .byName (Sat.fromName "a0".data)
    ∧ Sat.fromStr "1°1′0″0‴".data = .byDegree (Sat.fromDegree "1°1′0″0‴".data)
    ∧ Sat.fromStr "1%".data = .byPercentile
    ∧ Sat.fromStr "1.0".data = .byDecimal (Sat.fromDecimal "1.0".data)
    ∧ Sat.fromStr "5".data = .byInteger (Sat.fromInteger "5".data)
    ∧ (5 : Nat) < Sat.SUPPLY
    ∧ Sat.fromStr "2099999997690000".data = .byInteger (.error .IntegerRange) :=
  ⟨(sat_from_str_dispatch _).1 (by decide),
   (sat_from_str_dispatch _).2.1 (by decide) (by decide),
   (sat_from_str_dispatch _).2.2.1 (by decide) (by decide) (by decide),
   (sat_from_str_dispatch _).2.2.2.1 (by decide) (by decide) (by decide) (by decide),
   (sat_from_str_dispatch _).2.2.2.2.1 (by decide) (by decide) (by decide) (by decide),
   (sat_from_str_dispatch "5".data).2.2.2.2.2.1 5 (by decide),
   (sat_from_str_dispatch _).2.2.2.2.2.2 2099999997690000 (by decide) (by decide)⟩

/-- C8: `Chain::from_str` accepts exactly "mainnet", "regtest", "signet"
and "testnet"; "testnet4" fails to parse; the display/parse round trip
holds for the four accepted variants but fails for `Testnet4`, which
displays as "testnet4". -/
theorem chain_from_str_spec :
    (∀ s : String, (Chain.fromStr s).isSome = true
        ↔ (s = "mainnet" ∨ s = "regtest" ∨ s = "signet" ∨ s = "testnet"))
    ∧ Chain.fromStr "testnet4" = none
    ∧ (∀ c : Chain, c ≠ .Testnet4 → Chain.fromStr c.display = some c)
    ∧ Chain.display .Testnet4 = "testnet4"
    ∧ Chain.fromStr (Chain.display .Testnet4) = none := by
  refine ⟨?_, by decide, ?_, rfl, by decide⟩
  · intro s
    unfold Chain.fromStr
    split_ifs with h1 h2 h3 h4 <;> simp_all
  · intro c h
    cases c
    · decide
    · decide
    · decide
    · decide
    · exact absurd rfl h

/-- Witness for `chain_from_str_spec` at "mainnet" and `Chain::Mainnet`. -/
theorem chain_from_str_spec_witness :
    ((Chain.fromStr "mainnet").isSome = true
      ↔ ("mainnet" = "mainnet" ∨ "mainnet" = "regtest" ∨ "mainnet" = "signet"
          ∨ "mainnet" = "testnet"))
    ∧ Chain.fromStr Chain.Mainnet.display = some Chain.Mainnet :=
  ⟨chain_from_str_spec.1 "mainnet", chain_from_str_spec.2.2.1 Chain.Mainnet (by decide)⟩

/-- C3 counterexample: parsing `"1°0′0″0‴"` does not fail with
`EpochPeriodMismatch`; it succeeds, yielding the first sat of cycle 1
(height 1260000), because `(0 + 210000·6 − 0) mod 336 = 0`. -/
theorem sat_degree_cycle_start_parses :
    Sat.fromStr "1°0′0″0‴".data = .byDegree (.ok 2067187500000000) := by decide

/-- C3 (amended): `"1°0′336″0‴"` parses successfully, as does
`"1°0′0″0‴"` (the counterexample); a string violating the consistency
check, such as `"0°1′0″0‴"`, fails with `EpochPeriodMismatch`; and in
general a degree string is accepted only if
`(period_offset + H·C − epoch_offset) mod 336 = 0` with `H = 210000`,
`C = 6`. -/
theorem sat_degree_parse_spec :
    Sat.fromStr "1°0′336″0‴".data = .byDegree (.ok 2083593750000000)
    ∧ Sat.fromStr "0°1′0″0‴".data = .byDegree (.error .EpochPeriodMismatch)
    ∧ (∀ (s : List Char) (n : Nat), Sat.fromDegree s = .ok n →
        ∃ cyc rest0 eo rest1 po rest2 c e p,
          splitOnce s '°' = some (cyc, rest0)
          ∧ splitOnce rest0 '′' = some (eo, rest1)
          ∧ splitOnce rest1 '″' = some (po, rest2)
          ∧ parseUint cyc (2 ^ 32) = some c
          ∧ parseUint eo (2 ^ 32) = some e
          ∧ parseUint po (2 ^ 32) = some p
          ∧ (p + SUBSIDY_HALVING_INTERVAL * CYCLE_EPOCHS - e) % 336 = 0) :=
  ⟨by decide, by decide, sat_from_degree_ok_mod336⟩

/-- Witness for `sat_degree_parse_spec`: the acceptance condition
extracted from the successful parse of `"1°0′336″0‴"`. -/
theorem sat_degree_parse_spec_witness :
    ∃ cyc rest0 eo rest1 po rest2 c e p,
      splitOnce "1°0′336″0‴".data '°' = some (cyc, rest0)
      ∧ splitOnce rest0 '′' = some (eo, rest1)
      ∧ splitOnce rest1 '″' = some (po, rest2)
      ∧ parseUint cyc (2 ^ 32) = some c
      ∧ parseUint eo (2 ^ 32) = some e
      ∧ parseUint po (2 ^ 32) = some p
      ∧ (p + SUBSIDY_HALVING_INTERVAL * CYCLE_EPOCHS - e) % 336 = 0 :=
  sat_degree_parse_spec.2.2 "1°0′336″0‴".data 2083593750000000 (by decide)
